import Mathlib

/-!
Verification development for the OK-pdf repository (src/types.ts).

The file shallowly embeds the five core operations of the pdf service
(`mergePdfs`, `splitPdf`, `editPdf`, `extractText`, `createPdfFromText`)
over an explicit data model of documents, pages and drawing operations,
and proves the specification's claims about them.

Modelling conventions:
  - A page's content stream is modelled as the ordered list of drawing
    operations it carries; coordinates, sizes, colors and opacities are
    rationals (all numerals in the source are exactly representable).
  - The external codec's load step is out of scope: operations take the
    loaded documents directly.  `copyPages` models pdf-lib's fallible
    page-copying call (`Option`-valued: `none` on an out-of-range index).
  - JavaScript `text.split('\n')` is modelled by `splitLines` on the
    character list, `items.join(' ')` by `joinFrags`, and
    `line.substring(0, 100)` by `List.take 100` on the characters.
-/

namespace OkPdf

/-- The fonts embedded by the source (`StandardFonts.Helvetica` in
`createPdfFromText`, `StandardFonts.HelveticaBold` in `editPdf`). -/
inductive Font where
  | helvetica
  | helveticaBold
deriving DecidableEq

/-- One `page.drawText` call, as recorded in a page's content stream:
the drawn characters, position, size, font, RGB color and opacity
(pdf-lib's default opacity is 1 when the option is omitted). -/
structure DrawOp where
  text : List Char
  x : ℚ
  y : ℚ
  size : ℚ
  font : Font
  color : ℚ × ℚ × ℚ
  opacity : ℚ
deriving DecidableEq

/-- A page: geometry plus its ordered content stream. -/
structure Page where
  width : ℚ
  height : ℚ
  ops : List DrawOp
deriving DecidableEq

/-- A document: its ordered sequence of pages. -/
structure Document where
  pages : List Page
deriving DecidableEq

/-- Model of `pdf.getPageIndices()`: the indices `[0, ..., pageCount - 1]`. -/
def getPageIndices (d : Document) : List Nat :=
  List.range d.pages.length

/-- Model of `newPdf.copyPages(pdf, indices)`: the pages of `d` at the given
indices, in the given order; fails (as pdf-lib does) if an index is out
of range. -/
def copyPages (d : Document) : List Nat → Option (List Page)
  | [] => some []
  | i :: rest =>
    match d.pages[i]?, copyPages d rest with
    | some p, some ps => some (p :: ps)
    | _, _ => none

/-- The body of the `for (const file of files)` loop of `mergePdfs`:
copy every page of each source (in order) onto the end of the
accumulator document. -/
def mergeLoop (acc : Document) : List Document → Option Document
  | [] => some acc
  | d :: rest =>
    match copyPages d (getPageIndices d) with
    | some ps => mergeLoop ⟨acc.pages ++ ps⟩ rest
    | none => none

/-- The function `mergePdfs` (src/types.ts:407-416): starting from a freshly created
empty document, append all pages of every source document in order. -/
def mergePdfs (docs : List Document) : Option Document :=
  mergeLoop ⟨[]⟩ docs

/-- The index computation of `splitPdf` (src/types.ts:427):
`pageNumbers.map(n => n - 1).filter(n => n >= 0 && n < pageCount)`.
This is the spec's `selectPages`. -/
def selectPages (pageNumbers : List Int) (pageCount : Nat) : List Int :=
  (pageNumbers.map (fun n => n - 1)).filter
    (fun n => decide (0 ≤ n ∧ n < (pageCount : Int)))

/-- The function `splitPdf` (src/types.ts:421-432): copy the selected pages into a
freshly created document. -/
def splitPdf (d : Document) (pageNumbers : List Int) : Option Document :=
  match copyPages d ((selectPages pageNumbers d.pages.length).map Int.toNat) with
  | some ps => some ⟨ps⟩
  | none => none

/-- The overlay drawing operation of `editPdf` (src/types.ts:445-452):
`drawText(overlayText, { x: 50, y: height - 50, size: 30,
font: HelveticaBold, color: rgb(0.9, 0.1, 0.1), opacity: 0.5 })`. -/
def overlayOp (text : String) (height : ℚ) : DrawOp :=
  ⟨text.data, 50, height - 50, 30, Font.helveticaBold, (9/10, 1/10, 1/10), 1/2⟩

/-- The function `editPdf` (src/types.ts:437-456): draw the overlay text on every
page of the loaded document. -/
def editPdf (d : Document) (overlayText : String) : Document :=
  ⟨d.pages.map (fun p => { p with ops := p.ops ++ [overlayOp overlayText p.height] })⟩

/-- The state-passing reading of `editPdf`'s drawing loop: the source
loads `pdf`, draws on the pages of `pdf` itself, and saves that same
`pdf`.  The first component is the final state of the loaded source
document after the loop; the second is the document that is serialized
as output.  In the source both are the one object `pdf`. -/
def editPdfRun (d : Document) (overlayText : String) : Document × Document :=
  (editPdf d overlayText, editPdf d overlayText)

/-- Modelled from the spec: the external document codec's serialization
step ("accepts a page-sequence handle and returns serialized bytes",
spec section 6).  The byte format itself lives outside the repository,
so the bytes are modelled abstractly as a `%PDF` header, the page
count, and one record per page; serialization is total per the spec
(it never fails, including on zero-page documents). -/
def save (d : Document) : Except String (List Nat) :=
  Except.ok (37 :: 80 :: 68 :: 70 :: d.pages.length :: d.pages.map (fun p => p.ops.length))

/-- JavaScript `text.split('\n')` on the character list: splits on every
newline character, so the empty list yields one (empty) line and a
trailing newline yields a trailing empty line. -/
def splitLines : List Char → List (List Char)
  | [] => [[]]
  | c :: rest =>
    if c = '\n' then [] :: splitLines rest
    else
      match splitLines rest with
      | [] => [[c]]
      | l :: ls => (c :: l) :: ls

/-- Model of `textContent.items.map(item => item.str).join(' ')`: the page's text
fragments joined with single spaces. -/
def joinFrags : List String → String
  | [] => ""
  | [s] => s
  | s :: t :: rest => s ++ " " ++ joinFrags (t :: rest)

/-- The page heading written by `extractText`: `--- Page {i} ---`. -/
def pageHeader (i : Nat) : String :=
  "--- Page " ++ Nat.repr i ++ " ---"

/-- The block appended per page by `extractText` (src/types.ts:471):
`--- Page {i} ---\n{pageText}\n\n`. -/
def pageBlock (i : Nat) (frags : List String) : String :=
  pageHeader i ++ "\n" ++ joinFrags frags ++ "\n\n"

/-- The page loop of `extractText`, accumulating blocks from page
number `i` upward.  A document, for extraction, is the list of each
page's ordered text fragments as reported by the pdf.js reader. -/
def extractTextAux : Nat → List (List String) → String
  | _, [] => ""
  | i, p :: ps => pageBlock i p ++ extractTextAux (i + 1) ps

/-- The function `extractText` (src/types.ts:461-475): iterate the pages starting at
page number 1 and concatenate their blocks. -/
def extractText (doc : List (List String)) : String :=
  extractTextAux 1 doc

/-- Right-fold concatenation of a list of strings (used to state what
`extractText` returns). -/
def concatAll (l : List String) : String :=
  l.foldr (fun a b => a ++ b) ""

/-- The characters of the page-delimiter marker `--- Page `. -/
def markerChars : List Char :=
  "--- Page ".data

/-- A line of output that is a page-delimiter marker line: it begins
with `--- Page `. -/
def isMarkerLine (l : List Char) : Bool :=
  decide (l.take markerChars.length = markerChars)

/-- The lines, in order, of `extractText`'s output. -/
def extractLines (doc : List (List String)) : List (List Char) :=
  splitLines (extractText doc).data

/-- The line structure of `extractTextAux i`: one header line per page,
then the page's joined text (itself possibly several lines), then a
blank line, ending with the final empty line of the output. -/
def extractLinesModel : Nat → List (List String) → List (List Char)
  | _, [] => [[]]
  | i, p :: ps =>
    (pageHeader i).data :: (splitLines (joinFrags p).data ++ [] :: extractLinesModel (i + 1) ps)

/-- Model of `pdfDoc.addPage()`: a fresh page of pdf-lib's default size 612x792
with empty content. -/
def blankPage : Page :=
  ⟨612, 792, []⟩

/-- The margin of `createPdfFromText` (src/types.ts:486). -/
def layoutMargin : Int := 50

/-- The font size of `createPdfFromText` (src/types.ts:485). -/
def layoutFontSize : Int := 12

/-- The drawing operation of the layout loop (src/types.ts:496-502):
`drawText(line.substring(0, 100), { x: margin, y: cursorY, size: 12,
font: Helvetica, color: rgb(0, 0, 0) })` (opacity defaults to 1). -/
def lineOp (line : List Char) (y : Int) : DrawOp :=
  ⟨line.take 100, 50, (y : ℚ), 12, Font.helvetica, (0, 0, 0), 1⟩

/-- The mutable state of the layout loop: the completed pages, the page
currently being written (`page`), and `cursorY`. -/
structure LayoutState where
  done : List Page
  cur : Page
  cursorY : Int
deriving DecidableEq

/-- One iteration of `for (const line of lines)` in `createPdfFromText`
(src/types.ts:491-504): if the cursor is within `margin + 20` of the
bottom, start a new page and reset the cursor to `height - margin`;
then draw the first 100 characters of the line at the left margin and
move the cursor down by `fontSize + 5`. -/
def layoutStep (s : LayoutState) (line : List Char) : LayoutState :=
  let s' := if s.cursorY < layoutMargin + 20 then
      { done := s.done ++ [s.cur], cur := blankPage, cursorY := 792 - layoutMargin }
    else s
  { done := s'.done,
    cur := { s'.cur with ops := s'.cur.ops ++ [lineOp line s'.cursorY] },
    cursorY := s'.cursorY - (layoutFontSize + 5) }

/-- The function `createPdfFromText` (src/types.ts:480-507): split the text on line
breaks and lay the lines out over pages starting from a fresh page with
the cursor at `height - margin`.  The `title` parameter is accepted but
never drawn, exactly as in the source. -/
def createPdfFromText (text : String) (title : String) : Document :=
  let lines := splitLines text.data
  let final := lines.foldl layoutStep ⟨[], blankPage, 792 - layoutMargin⟩
  ⟨final.done ++ [final.cur]⟩

/-- The texts drawn by a document's pages, page by page, in order. -/
def drawnTexts (d : Document) : List (List Char) :=
  ((d.pages.map Page.ops).flatten).map DrawOp.text

/-- The texts drawn so far in a layout state (completed pages then the
current page). -/
def stateTexts (s : LayoutState) : List (List Char) :=
  (((s.done ++ [s.cur]).map Page.ops).flatten).map DrawOp.text

/-- Lines drawn per page by the layout loop: the cursor starts at
`792 - margin = 742` and drops `fontSize + 5 = 17` per drawn line, and
a page break fires exactly when it is below `margin + 20 = 70`;
`742 - 17 * k < 70` first holds at `k = 40`, so a page receives 40
lines before a break. -/
def pageCapacity : Nat := 40

/-! ## Theorems -/

theorem splitLines_ne_nil (l : List Char) : splitLines l ≠ [] := by
  induction l with
  | nil => simp [splitLines]
  | cons c rest ih =>
    by_cases h : c = '\n'
    · simp [splitLines, h]
    · cases hr : splitLines rest with
      | nil => exact absurd hr ih
      | cons a as => simp [splitLines, h, hr]

theorem splitLines_eq_single {a : List Char} (h : '\n' ∉ a) : splitLines a = [a] := by
  induction a with
  | nil => rfl
  | cons c rest ih =>
    have hc : ¬ c = '\n' := fun hc => h (hc ▸ List.mem_cons_self c rest)
    have hr : splitLines rest = [rest] := ih (fun hm => h (List.mem_cons_of_mem c hm))
    simp [splitLines, hc, hr]

theorem splitLines_append_nl (a b : List Char) :
    splitLines (a ++ '\n' :: b) = splitLines a ++ splitLines b := by
  induction a with
  | nil => simp [splitLines]
  | cons c rest ih =>
    by_cases h : c = '\n'
    · simp [splitLines, h, ih]
    · cases hr : splitLines rest with
      | nil => exact absurd hr (splitLines_ne_nil rest)
      | cons l ls =>
        have : splitLines (rest ++ '\n' :: b) = (l :: ls) ++ splitLines b := hr ▸ ih
        simp [splitLines, h, this, hr]

theorem digitChar_ne_nl (n : Nat) : Nat.digitChar n ≠ '\n' := by
  by_cases h : n < 16
  · interval_cases n <;> decide
  · unfold Nat.digitChar
    have hne : ∀ c : Nat, c < 16 → ¬ n = c := fun c hc => by omega
    rw [if_neg (hne 0 (by norm_num)), if_neg (hne 1 (by norm_num)),
      if_neg (hne 2 (by norm_num)), if_neg (hne 3 (by norm_num)),
      if_neg (hne 4 (by norm_num)), if_neg (hne 5 (by norm_num)),
      if_neg (hne 6 (by norm_num)), if_neg (hne 7 (by norm_num)),
      if_neg (hne 8 (by norm_num)), if_neg (hne 9 (by norm_num)),
      if_neg (hne 10 (by norm_num)), if_neg (hne 11 (by norm_num)),
      if_neg (hne 12 (by norm_num)), if_neg (hne 13 (by norm_num)),
      if_neg (hne 14 (by norm_num)), if_neg (hne 15 (by norm_num))]
    decide

theorem toDigitsCore_ne_nl :
    ∀ (f n : Nat) (acc : List Char), (∀ c ∈ acc, c ≠ '\n') →
      ∀ c ∈ Nat.toDigitsCore 10 f n acc, c ≠ '\n' := by
  intro f
  induction f with
  | zero => intro n acc hacc; simpa [Nat.toDigitsCore] using hacc
  | succ f ih =>
    intro n acc hacc c hc
    rw [Nat.toDigitsCore] at hc
    have hcons : ∀ c ∈ Nat.digitChar (n % 10) :: acc, c ≠ '\n' := by
      intro c hc
      rcases List.mem_cons.mp hc with h | h
      · exact h ▸ digitChar_ne_nl (n % 10)
      · exact hacc c h
    by_cases h10 : n / 10 = 0
    · rw [if_pos h10] at hc
      exact hcons c hc
    · rw [if_neg h10] at hc
      exact ih (n / 10) _ hcons c hc

theorem repr_no_nl (n : Nat) : '\n' ∉ (Nat.repr n).data := by
  intro hmem
  exact toDigitsCore_ne_nl (n + 1) n [] (by simp) '\n' hmem rfl

theorem pageHeader_data (i : Nat) :
    (pageHeader i).data = markerChars ++ ((Nat.repr i).data ++ " ---".data) := by
  simp [pageHeader, String.data_append, markerChars, List.append_assoc]

theorem pageHeader_no_nl (i : Nat) : '\n' ∉ (pageHeader i).data := by
  rw [pageHeader_data]
  intro hmem
  rcases List.mem_append.mp hmem with h | h
  · exact absurd h (by decide)
  · rcases List.mem_append.mp h with h | h
    · exact repr_no_nl i h
    · exact absurd h (by decide)

theorem isMarkerLine_header (i : Nat) : isMarkerLine (pageHeader i).data = true := by
  rw [isMarkerLine, pageHeader_data, List.take_left]
  simp

theorem pageBlock_data (i : Nat) (frags : List String) :
    (pageBlock i frags).data
      = (pageHeader i).data ++ '\n' :: ((joinFrags frags).data ++ '\n' :: '\n' :: []) := by
  have h1 : "\n".data = ['\n'] := rfl
  have h2 : "\n\n".data = ['\n', '\n'] := rfl
  simp [pageBlock, String.data_append, h1, h2, List.append_assoc]

theorem extractTextAux_lines :
    ∀ (ps : List (List String)) (i : Nat),
      splitLines (extractTextAux i ps).data = extractLinesModel i ps := by
  intro ps
  induction ps with
  | nil => intro i; rfl
  | cons p ps ih =>
    intro i
    show splitLines (pageBlock i p ++ extractTextAux (i + 1) ps).data = _
    rw [String.data_append, pageBlock_data, List.append_assoc]
    rw [show ('\n' :: ((joinFrags p).data ++ '\n' :: '\n' :: []))
          ++ (extractTextAux (i + 1) ps).data
        = '\n' :: (((joinFrags p).data
            ++ '\n' :: ('\n' :: (extractTextAux (i + 1) ps).data))) by simp]
    rw [splitLines_append_nl, splitLines_eq_single (pageHeader_no_nl i)]
    rw [splitLines_append_nl]
    have hnl : splitLines ('\n' :: (extractTextAux (i + 1) ps).data)
        = [] :: splitLines (extractTextAux (i + 1) ps).data := by
      simp [splitLines]
    rw [hnl, ih (i + 1)]
    rfl

theorem isMarkerLine_nil : isMarkerLine [] = false := by decide

theorem extractLinesModel_countP :
    ∀ (ps : List (List String)) (i : Nat),
      (∀ p ∈ ps, ∀ l ∈ splitLines (joinFrags p).data, isMarkerLine l = false) →
      (extractLinesModel i ps).countP isMarkerLine = ps.length := by
  intro ps
  induction ps with
  | nil =>
    intro i _
    simp [extractLinesModel, List.countP_cons, List.countP_nil, isMarkerLine_nil]
  | cons p ps ih =>
    intro i h
    have htext : (splitLines (joinFrags p).data).countP isMarkerLine = 0 :=
      List.countP_eq_zero.mpr (by
        intro l hl
        simp [h p (List.mem_cons_self p ps) l hl])
    have hrest := ih (i + 1) (fun q hq => h q (List.mem_cons_of_mem p hq))
    simp [extractLinesModel, List.countP_cons, List.countP_append,
      isMarkerLine_nil, isMarkerLine_header, htext, hrest]

theorem extractLinesModel_filter :
    ∀ (ps : List (List String)) (i : Nat),
      (∀ p ∈ ps, ∀ l ∈ splitLines (joinFrags p).data, isMarkerLine l = false) →
      (extractLinesModel i ps).filter isMarkerLine
        = (List.range ps.length).map (fun k => (pageHeader (i + k)).data) := by
  intro ps
  induction ps with
  | nil => intro i _; simp [extractLinesModel, isMarkerLine_nil]
  | cons p ps ih =>
    intro i h
    have htext : (splitLines (joinFrags p).data).filter isMarkerLine = [] :=
      List.filter_eq_nil_iff.mpr (by
        intro l hl
        simp [h p (List.mem_cons_self p ps) l hl])
    have hrest := ih (i + 1) (fun q hq => h q (List.mem_cons_of_mem p hq))
    have hfun : (fun k => (pageHeader (i + Nat.succ k)).data)
        = (fun k => (pageHeader (i + 1 + k)).data) := by
      funext k
      have harith : i + Nat.succ k = i + 1 + k := by omega
      rw [harith]
    simp [extractLinesModel, List.filter_cons, List.filter_append,
      isMarkerLine_nil, isMarkerLine_header, htext, hrest,
      List.range_succ_eq_map, List.map_map, Function.comp_def, hfun]

theorem extractTextAux_concat :
    ∀ (ps : List (List String)) (i : Nat),
      extractTextAux i ps = concatAll ((List.enumFrom i ps).map (fun e => pageBlock e.1 e.2)) := by
  intro ps
  induction ps with
  | nil => intro i; rfl
  | cons p ps ih =>
    intro i
    show pageBlock i p ++ extractTextAux (i + 1) ps = _
    rw [ih (i + 1)]
    rfl

/-- C4 counterexample: for the one-page document whose only text
fragment is itself the string `--- Page 1 ---`, the output of
`extractText` contains two page-delimiter marker lines, not exactly
one (= the page count), so the unconditional "exactly N occurrences"
statement fails. -/
theorem extractText_marker_collision :
    [["--- Page 1 ---"]].length = 1
    ∧ (extractLines [["--- Page 1 ---"]]).countP isMarkerLine = 2 :=
  ⟨rfl, by decide⟩

/-- C4 (amended): `extractText` returns the concatenation, in ascending
page order starting at 1, of one block per page of the form
`--- Page {n} ---` on its own line followed by the page's fragments
joined with single spaces and a blank line; and, provided no page's
joined fragment text itself contains a line beginning with the
page-delimiter marker, the output contains exactly N marker lines, in
ascending page order. -/
theorem extractText_spec (doc : List (List String))
    (hclean : ∀ p ∈ doc, ∀ l ∈ splitLines (joinFrags p).data, isMarkerLine l = false) :
    extractText doc = concatAll ((List.enumFrom 1 doc).map (fun e => pageBlock e.1 e.2))
    ∧ (extractLines doc).countP isMarkerLine = doc.length
    ∧ (extractLines doc).filter isMarkerLine
        = (List.range doc.length).map (fun k => (pageHeader (k + 1)).data) := by
  refine ⟨extractTextAux_concat doc 1, ?_, ?_⟩
  · rw [extractLines, extractText, extractTextAux_lines]
    exact extractLinesModel_countP doc 1 hclean
  · rw [extractLines, extractText, extractTextAux_lines]
    rw [extractLinesModel_filter doc 1 hclean]
    apply List.map_congr_left
    intro k _
    have harith : 1 + k = k + 1 := by omega
    rw [harith]

/-- Witness for C4's amended theorem at a concrete two-page document
whose text contains no marker line. -/
theorem extractText_spec_witness :
    (∀ p ∈ [["hello", "world"], ["foo"]],
        ∀ l ∈ splitLines (joinFrags p).data, isMarkerLine l = false)
    ∧ (extractLines [["hello", "world"], ["foo"]]).countP isMarkerLine = 2 :=
  ⟨by decide, (extractText_spec [["hello", "world"], ["foo"]] (by decide)).2.1⟩

/-- C1: the page selection of `splitPdf` returns exactly the values
`n - 1` for the entries `n` of the request with `1 ≤ n ≤ pageCount`,
in the caller's order with duplicates preserved; it contains no index
below 0 or at/above the page count (out-of-range entries are silently
dropped, no error is raised); and `selectPages [1,3,1] 5 = [0,2,0]`. -/
theorem selectPages_spec :
    (∀ (r : List Int) (p : Nat),
        selectPages r p
          = (r.filter (fun n => decide (1 ≤ n ∧ n ≤ (p : Int)))).map (fun n => n - 1)
      ∧ (∀ i ∈ selectPages r p, 0 ≤ i ∧ i < (p : Int)))
    ∧ selectPages [1, 3, 1] 5 = [0, 2, 0] := by
  refine ⟨fun r p => ⟨?_, ?_⟩, by decide⟩
  · rw [selectPages, List.filter_map]
    have hpred : ((fun n => decide (0 ≤ n ∧ n < (p : Int))) ∘ fun n => n - 1)
        = (fun n => decide (1 ≤ n ∧ n ≤ (p : Int))) := by
      funext n
      simp only [Function.comp_apply, decide_eq_decide]
      omega
    rw [hpred]
  · intro i hi
    rw [selectPages] at hi
    have h := (List.mem_filter.mp hi).2
    have h' := of_decide_eq_true h
    exact h'

/-- Witness for C1 at the concrete request `[1, 3, 1]` with page
count 5: the selected index 0 is in range. -/
theorem selectPages_spec_witness :
    (0 : Int) ∈ selectPages [1, 3, 1] 5 ∧ (0 ≤ (0 : Int) ∧ (0 : Int) < ((5 : Nat) : Int)) :=
  ⟨by decide, (selectPages_spec.1 [1, 3, 1] 5).2 0 (by decide)⟩

theorem copyPages_append (d : Document) (a b : List Nat) :
    copyPages d (a ++ b)
      = match copyPages d a, copyPages d b with
        | some x, some y => some (x ++ y)
        | _, _ => none := by
  induction a with
  | nil =>
    cases hb : copyPages d b <;> simp [copyPages, hb]
  | cons i a ih =>
    cases hi : d.pages[i]? with
    | none => simp [copyPages, hi]
    | some pg =>
      cases ha : copyPages d a with
      | none => rw [ha] at ih; cases hb : copyPages d b <;> simp [copyPages, hi, ih, hb, ha]
      | some x => rw [ha] at ih; cases hb : copyPages d b <;> simp [copyPages, hi, ih, hb, ha]

theorem copyPages_take (d : Document) :
    ∀ n, n ≤ d.pages.length → copyPages d (List.range n) = some (d.pages.take n) := by
  intro n
  induction n with
  | zero => intro _; rfl
  | succ n ih =>
    intro hn
    have hlt : n < d.pages.length := by omega
    have hget : d.pages[n]? = some (d.pages.get ⟨n, hlt⟩) := by
      simp [List.getElem?_eq_getElem hlt]
    rw [List.range_succ, copyPages_append, ih (by omega)]
    have hone : copyPages d [n] = some [d.pages.get ⟨n, hlt⟩] := by
      simp [copyPages, hget]
    rw [hone, List.take_succ, hget]
    rfl

theorem copyPages_all (d : Document) :
    copyPages d (getPageIndices d) = some d.pages := by
  rw [getPageIndices, copyPages_take d d.pages.length (le_refl _), List.take_length]

theorem mergeLoop_eq :
    ∀ (docs : List Document) (acc : Document),
      mergeLoop acc docs = some ⟨acc.pages ++ (docs.map Document.pages).flatten⟩ := by
  intro docs
  induction docs with
  | nil => intro acc; simp [mergeLoop]
  | cons d docs ih =>
    intro acc
    rw [mergeLoop, copyPages_all]
    show mergeLoop ⟨acc.pages ++ d.pages⟩ docs = _
    rw [ih ⟨acc.pages ++ d.pages⟩]
    simp

/-- C2: `mergePdfs` produces the concatenation of each source's pages
in the given source order, preserving intra-source page order; in
particular merging a single document from all of its own pages in
natural order reproduces that document exactly. -/
theorem mergePdfs_spec :
    (∀ docs : List Document, mergePdfs docs = some ⟨(docs.map Document.pages).flatten⟩)
    ∧ (∀ d : Document, mergePdfs [d] = some d) := by
  constructor
  · intro docs
    rw [mergePdfs, mergeLoop_eq]
    simp
  · intro d
    rw [mergePdfs, mergeLoop_eq]
    simp

/-- C8: merging an empty sequence of sources yields a document with
zero pages, and serializing that zero-page document does not raise
(the codec's serialization, modelled from the spec, is total). -/
theorem mergePdfs_empty :
    mergePdfs [] = some ⟨[]⟩
    ∧ (Document.mk []).pages.length = 0
    ∧ ∃ bytes, save ⟨[]⟩ = Except.ok bytes :=
  ⟨rfl, rfl, ⟨[37, 80, 68, 70, 0], rfl⟩⟩

theorem layoutStep_break {s : LayoutState} (line : List Char)
    (h : s.cursorY < layoutMargin + 20) :
    layoutStep s line
      = ⟨s.done ++ [s.cur], { blankPage with ops := [lineOp line (792 - layoutMargin)] },
          792 - layoutMargin - (layoutFontSize + 5)⟩ := by
  simp [layoutStep, h, blankPage]

theorem layoutStep_no_break {s : LayoutState} (line : List Char)
    (h : ¬ s.cursorY < layoutMargin + 20) :
    layoutStep s line
      = ⟨s.done, { s.cur with ops := s.cur.ops ++ [lineOp line s.cursorY] },
          s.cursorY - (layoutFontSize + 5)⟩ := by
  simp [layoutStep, h]

theorem stateTexts_step (s : LayoutState) (line : List Char) :
    stateTexts (layoutStep s line) = stateTexts s ++ [line.take 100] := by
  by_cases h : s.cursorY < layoutMargin + 20
  · rw [layoutStep_break line h]
    simp [stateTexts, blankPage, lineOp]
  · rw [layoutStep_no_break line h]
    simp [stateTexts, lineOp]

theorem stateTexts_foldl (ls : List (List Char)) :
    ∀ s : LayoutState,
      stateTexts (ls.foldl layoutStep s) = stateTexts s ++ ls.map (fun l => l.take 100) := by
  induction ls with
  | nil => intro s; simp
  | cons l ls ih =>
    intro s
    rw [List.foldl_cons, ih (layoutStep s l), stateTexts_step]
    simp

theorem layout_ops_y (ls : List (List Char)) :
    ∀ s : LayoutState,
      (∀ p ∈ s.done ++ [s.cur], ∀ op ∈ p.ops, (layoutMargin : ℚ) ≤ op.y) →
      ∀ p ∈ (ls.foldl layoutStep s).done ++ [(ls.foldl layoutStep s).cur],
        ∀ op ∈ p.ops, (layoutMargin : ℚ) ≤ op.y := by
  induction ls with
  | nil => intro s h; simpa using h
  | cons l ls ih =>
    intro s h
    rw [List.foldl_cons]
    refine ih (layoutStep s l) ?_
    by_cases hb : s.cursorY < layoutMargin + 20
    · rw [layoutStep_break l hb]
      intro p hp op hop
      rcases List.mem_append.mp hp with hp | hp
      · exact h p hp op hop
      · have hpeq : p = { blankPage with ops := [lineOp l (792 - layoutMargin)] } := by
          simpa using hp
        subst hpeq
        have hopeq : op = lineOp l (792 - layoutMargin) := by simpa using hop
        subst hopeq
        show (layoutMargin : ℚ) ≤ ((792 - layoutMargin : Int) : ℚ)
        rw [layoutMargin]
        norm_num
    · rw [layoutStep_no_break l hb]
      intro p hp op hop
      rcases List.mem_append.mp hp with hp | hp
      · exact h p (List.mem_append_left _ hp) op hop
      · have hpeq : p = { s.cur with ops := s.cur.ops ++ [lineOp l s.cursorY] } := by
          simpa using hp
        subst hpeq
        simp only [List.mem_append, List.mem_singleton] at hop
        rcases hop with hop | hop
        · exact h s.cur (List.mem_append_right _ (List.mem_singleton_self _)) op hop
        · subst hop
          show (layoutMargin : ℚ) ≤ ((s.cursorY : Int) : ℚ)
          have hy : layoutMargin ≤ s.cursorY := by
            rw [layoutMargin]
            rw [layoutMargin] at hb
            omega
          exact_mod_cast hy

theorem layout_cap (ls : List (List Char)) :
    ∀ s : LayoutState,
      s.cursorY = 742 - 17 * (s.cur.ops.length : Int) →
      s.cur.ops.length ≤ 40 →
      (ls.foldl layoutStep s).cursorY
          = 742 - 17 * (((ls.foldl layoutStep s).cur.ops.length : Int))
      ∧ (ls.foldl layoutStep s).cur.ops.length ≤ 40 := by
  induction ls with
  | nil => intro s h1 h2; exact ⟨h1, h2⟩
  | cons l ls ih =>
    intro s h1 h2
    rw [List.foldl_cons]
    by_cases hb : s.cursorY < layoutMargin + 20
    · rw [layoutStep_break l hb]
      refine ih _ ?_ ?_
      · simp [blankPage, layoutMargin, layoutFontSize]
      · simp [blankPage]
    · rw [layoutStep_no_break l hb]
      rw [layoutMargin] at hb
      refine ih _ ?_ ?_
      · simp [layoutFontSize]
        omega
      · simp
        omega

theorem layout_min_pages (ls : List (List Char)) (hlen : 40 < ls.length) :
    2 ≤ (ls.foldl layoutStep ⟨[], blankPage, 792 - layoutMargin⟩).done.length + 1 := by
  have hcap := (layout_cap ls ⟨[], blankPage, 792 - layoutMargin⟩
    (by simp [blankPage, layoutMargin]) (by simp [blankPage])).2
  have hcount := stateTexts_foldl ls ⟨[], blankPage, 792 - layoutMargin⟩
  by_contra hle
  have hdone : (ls.foldl layoutStep ⟨[], blankPage, 792 - layoutMargin⟩).done = [] := by
    apply List.eq_nil_of_length_eq_zero
    omega
  have hst : (stateTexts (ls.foldl layoutStep ⟨[], blankPage, 792 - layoutMargin⟩)).length
      = ls.length := by
    rw [hcount]
    simp [stateTexts, blankPage]
  rw [stateTexts, hdone] at hst
  simp at hst
  omega

/-- C3: in `createPdfFromText`, a new page is started and the cursor
reset to `height - margin` exactly when the cursor is within
`margin + 20` units of the bottom edge before drawing a line;
consequently every drawn operation sits at a y-coordinate at least the
margin (50 units), and any text with more lines than one page's
capacity (40 lines) produces more than one page. -/
theorem createPdfFromText_pagination :
    (∀ (s : LayoutState) (line : List Char),
        (s.cursorY < layoutMargin + 20 →
          layoutStep s line
            = ⟨s.done ++ [s.cur], { blankPage with ops := [lineOp line (792 - layoutMargin)] },
                792 - layoutMargin - (layoutFontSize + 5)⟩)
      ∧ (¬ s.cursorY < layoutMargin + 20 →
          layoutStep s line
            = ⟨s.done, { s.cur with ops := s.cur.ops ++ [lineOp line s.cursorY] },
                s.cursorY - (layoutFontSize + 5)⟩))
    ∧ (∀ text title : String, ∀ p ∈ (createPdfFromText text title).pages,
        ∀ op ∈ p.ops, (layoutMargin : ℚ) ≤ op.y)
    ∧ (∀ text title : String,
        pageCapacity < (splitLines text.data).length →
          2 ≤ (createPdfFromText text title).pages.length) := by
  refine ⟨fun s line => ⟨fun h => layoutStep_break line h, fun h => layoutStep_no_break line h⟩,
    ?_, ?_⟩
  · intro text title p hp op hop
    have hinit : ∀ p ∈ ([] : List Page) ++ [blankPage], ∀ op ∈ p.ops, (layoutMargin : ℚ) ≤ op.y := by
      intro p hp op hop
      have : p = blankPage := by simpa using hp
      subst this
      simp [blankPage] at hop
    exact layout_ops_y (splitLines text.data) ⟨[], blankPage, 792 - layoutMargin⟩ hinit p hp op hop
  · intro text title hlen
    have hmin := layout_min_pages (splitLines text.data) (by simpa [pageCapacity] using hlen)
    have hpg : (createPdfFromText text title).pages.length
        = ((splitLines text.data).foldl layoutStep ⟨[], blankPage, 792 - layoutMargin⟩).done.length
          + 1 := by
      simp [createPdfFromText]
    omega

/-- Witness for C3: at a concrete low-cursor state the break fires, and
a concrete 42-line text produces at least two pages. -/
theorem createPdfFromText_pagination_witness :
    ((⟨[], blankPage, 60⟩ : LayoutState).cursorY < layoutMargin + 20
      ∧ layoutStep ⟨[], blankPage, 60⟩ ['x']
          = ⟨[blankPage], { blankPage with ops := [lineOp ['x'] (792 - layoutMargin)] },
              792 - layoutMargin - (layoutFontSize + 5)⟩)
    ∧ (pageCapacity < (splitLines (String.mk (List.replicate 41 '\n')).data).length
      ∧ 2 ≤ (createPdfFromText (String.mk (List.replicate 41 '\n')) "t").pages.length) :=
  ⟨⟨by decide, (createPdfFromText_pagination.1 ⟨[], blankPage, 60⟩ ['x']).1 (by decide)⟩,
    by decide,
    createPdfFromText_pagination.2.2 (String.mk (List.replicate 41 '\n')) "t" (by decide)⟩

theorem drawnTexts_layout (text title : String) :
    drawnTexts (createPdfFromText text title)
      = (splitLines text.data).map (fun l => l.take 100) := by
  have h := stateTexts_foldl (splitLines text.data) ⟨[], blankPage, 792 - layoutMargin⟩
  have hinit : stateTexts ⟨[], blankPage, 792 - layoutMargin⟩ = [] := by
    simp [stateTexts, blankPage]
  rw [hinit] at h
  have hdoc : drawnTexts (createPdfFromText text title)
      = stateTexts ((splitLines text.data).foldl layoutStep
          ⟨[], blankPage, 792 - layoutMargin⟩) := rfl
  rw [hdoc, h]
  simp

/-- C5: every line of input is drawn truncated to its first 100
characters; characters beyond index 100 are dropped entirely, never
wrapped onto a following line; in particular a single 500-character
line renders exactly its first 100 characters and drops the remaining
400. -/
theorem createPdfFromText_truncation :
    (∀ text title : String,
        drawnTexts (createPdfFromText text title)
          = (splitLines text.data).map (fun l => l.take 100))
    ∧ drawnTexts (createPdfFromText (String.mk (List.replicate 500 'A')) "t")
        = [List.replicate 100 'A'] := by
  refine ⟨drawnTexts_layout, ?_⟩
  rw [drawnTexts_layout]
  have hone : splitLines (String.mk (List.replicate 500 'A')).data
      = [List.replicate 500 'A'] := by
    apply splitLines_eq_single
    intro hmem
    have := List.eq_of_mem_replicate hmem
    exact absurd this (by decide)
  rw [hone]
  show [(List.replicate 500 'A').take 100] = [List.replicate 100 'A']
  have hmin : (100 : Nat) ⊓ 500 = 100 := by omega
  rw [List.take_replicate, hmin]

/-- C9: the `title` parameter of `createPdfFromText` never affects the
output document — it is accepted but not rendered. -/
theorem createPdfFromText_title_irrelevant :
    ∀ (text t1 t2 : String), createPdfFromText text t1 = createPdfFromText text t2 :=
  fun _ _ _ => rfl

/-- C10: `createPdfFromText` always produces at least one page; on the
empty string it produces exactly one page carrying a single draw of
the empty line, because splitting the empty string on line breaks
still yields one (empty) line. -/
theorem createPdfFromText_nonempty :
    (∀ text title : String, 1 ≤ (createPdfFromText text title).pages.length)
    ∧ (∀ title : String,
        createPdfFromText "" title = ⟨[⟨612, 792, [lineOp [] (792 - layoutMargin)]⟩]⟩)
    ∧ splitLines "".data = [[]] := by
  refine ⟨?_, fun title => rfl, rfl⟩
  intro text title
  simp [createPdfFromText]

/-- C6: `editPdf` draws the given text on every page of the document at
`x = 50` and `y = height - 50`, at size 30, in color
`rgb(0.9, 0.1, 0.1)` at opacity 0.5, in the bold font, identically for
all pages: page count is preserved and each output page is the input
page with exactly that operation appended. -/
theorem editPdf_overlay (d : Document) (t : String) :
    (editPdf d t).pages.length = d.pages.length
    ∧ ∀ i : Nat,
        (editPdf d t).pages[i]?
          = (d.pages[i]?).map (fun p =>
              ⟨p.width, p.height,
                p.ops ++ [⟨t.data, 50, p.height - 50, 30, Font.helveticaBold,
                  (9/10, 1/10, 1/10), 1/2⟩]⟩) := by
  refine ⟨by simp [editPdf], fun i => ?_⟩
  show (Document.pages ⟨d.pages.map _⟩)[i]? = _
  rw [List.getElem?_map]
  rfl

/-- C7 counterexample: `editPdf` does not leave the loaded source
document unchanged — on a one-page document, the loaded document's
state after the drawing loop differs from the original document. -/
theorem editPdf_mutates :
    (editPdfRun ⟨[⟨612, 792, []⟩]⟩ "w").1 ≠ ⟨[⟨612, 792, []⟩]⟩ := by
  decide

/-- C7 (amended): `editPdf` draws the overlay directly onto the loaded
document rather than into a fresh one: the loaded document's final
state is identical to the output document, and it equals the original
source document only when the document has no pages (so any document
with at least one page is changed in place). -/
theorem editPdf_in_place (d : Document) (t : String) :
    (editPdfRun d t).1 = (editPdfRun d t).2
    ∧ ((editPdfRun d t).1 = d ↔ d.pages = []) := by
  refine ⟨rfl, ?_, ?_⟩
  · intro h
    have hpg : (editPdf d t).pages = d.pages := congrArg Document.pages h
    rw [editPdf] at hpg
    cases hd : d.pages with
    | nil => rfl
    | cons p ps =>
      rw [hd] at hpg
      simp only [List.map_cons, List.cons.injEq] at hpg
      have hops := congrArg Page.ops hpg.1
      simp at hops
  · intro h
    cases d with
    | mk pages =>
      simp only at h
      subst h
      rfl

end OkPdf
